import Mathlib

/-!
Verification of the predictit-arbitrage pipeline (`task.py`).

The Python pipeline is embedded shallowly:
* a pandas `DataFrame` of flattened contract rows becomes a `List ContractRecord`;
* nullable float columns become `Option ℚ`; all arithmetic is exact rational
  arithmetic (`ℚ`), mirroring the formulas in the source;
* the four Calculator stages (`_calculate_at_contract_level`,
  `_aggregate_at_market_level`, `_calculate_at_market_level`, `_filter_data`)
  become list transformations;
* the ledger CSV (`arbs.csv`) becomes a `List LedgerEntry`; `pd.concat` of the
  freshly tagged rows with the old log becomes list append (new rows first);
* `drop_duplicates(subset=['murl'], keep='last')` becomes
  `dropDupByMurlKeepLast` (keep a row iff no later row has the same `murl`);
* the four formatted report lines of `_calculate_profit_from_log` become a
  `List ReportLine`, abstracting the string formatting but keeping the line
  structure and the numeric formulas;
* `(datetime.utcnow() - datetime(2021, 3, 29)).days + 1` becomes `daysElapsed`
  on timestamps measured in seconds, with Python's floor division (`Int.fdiv`).
-/

/-- One flattened row produced by `_get_contract_data`: the market's
`shortName`/`url` prefixed with `m`, the contract's `name` and four cost
fields prefixed with `c`.  A cost is a price or null. -/
structure ContractRecord where
  mshortName : String
  murl : String
  cname : String
  cbestBuyYesCost : Option ℚ
  cbestBuyNoCost : Option ℚ
  cbestSellYesCost : Option ℚ
  cbestSellNoCost : Option ℚ
deriving DecidableEq, Repr

/-- A row after `_calculate_at_contract_level`: the surviving contract columns
plus the per-contract seed columns `contracts_ct`, `revenue`, `pi_cut`,
`pi_cut_min`. -/
structure ContractCalc where
  mshortName : String
  murl : String
  cname : String
  cbestBuyYesCost : Option ℚ
  cbestBuyNoCost : Option ℚ
  cbestSellYesCost : Option ℚ
  cbestSellNoCost : Option ℚ
  contracts_ct : ℚ
  revenue : ℚ
  pi_cut : ℚ
  pi_cut_min : ℚ
deriving DecidableEq, Repr

/-- The row built for one contract whose `cbestBuyNoCost` is the non-null
value `c`: `contracts_ct = 1`, `revenue = 1`, `pi_cut = (1 - c) * 0.1`,
`pi_cut_min = pi_cut` (lines 49-51 of `task.py`). -/
def mkContractCalc (r : ContractRecord) (c : ℚ) : ContractCalc :=
  { mshortName := r.mshortName
    murl := r.murl
    cname := r.cname
    cbestBuyYesCost := r.cbestBuyYesCost
    cbestBuyNoCost := some c
    cbestSellYesCost := r.cbestSellYesCost
    cbestSellNoCost := r.cbestSellNoCost
    contracts_ct := 1
    revenue := 1
    pi_cut := (1 - c) * (1 / 10)
    pi_cut_min := (1 - c) * (1 / 10) }

/-- Stage 1, `_calculate_at_contract_level`: drop rows whose `cbestBuyNoCost`
is null, then add the seed columns. -/
def calculateAtContractLevel (rs : List ContractRecord) : List ContractCalc :=
  rs.filterMap fun r => r.cbestBuyNoCost.map (mkContractCalc r)

/-- A row after `_aggregate_at_market_level`: one row per `(mshortName, murl)`
group, cost and revenue columns summed, `pi_cut_min` minimised. -/
structure MarketAgg where
  mshortName : String
  murl : String
  cbestBuyYesCost : ℚ
  cbestSellYesCost : ℚ
  cbestBuyNoCost : ℚ
  cbestSellNoCost : ℚ
  contracts_ct : ℚ
  revenue : ℚ
  pi_cut : ℚ
  pi_cut_min : ℚ
deriving DecidableEq, Repr

/-- Sum of a nullable column, with nulls contributing nothing
(pandas `sum` skips NaN). -/
def optSum (l : List (Option ℚ)) : ℚ :=
  (l.map fun o => o.getD 0).sum

/-- Minimum of a list of rationals (pandas `min` aggregation over a group;
groups are never empty). -/
def listMin : List ℚ → ℚ
  | [] => 0
  | [a] => a
  | a :: b :: t => min a (listMin (b :: t))

/-- The rows of one `groupby` group: all rows whose `(mshortName, murl)` key
matches. -/
def groupRecords (cs : List ContractCalc) (ms mu : String) : List ContractCalc :=
  cs.filter fun r => r.mshortName == ms && r.murl == mu

/-- The group keys in first-appearance order (`groupby(..., sort=False)`). -/
def marketKeys : List ContractCalc → List (String × String)
  | [] => []
  | r :: rest =>
      (r.mshortName, r.murl) ::
        (marketKeys rest).filter fun k => !(k == (r.mshortName, r.murl))

/-- The aggregated row of one group: `sum` over the four cost columns and
`contracts_ct`, `revenue`, `pi_cut`; `min` over `pi_cut_min`
(lines 53-56 of `task.py`). -/
def aggregateGroup (cs : List ContractCalc) (ms mu : String) : MarketAgg :=
  { mshortName := ms
    murl := mu
    cbestBuyYesCost := optSum ((groupRecords cs ms mu).map (·.cbestBuyYesCost))
    cbestSellYesCost := optSum ((groupRecords cs ms mu).map (·.cbestSellYesCost))
    cbestBuyNoCost := optSum ((groupRecords cs ms mu).map (·.cbestBuyNoCost))
    cbestSellNoCost := optSum ((groupRecords cs ms mu).map (·.cbestSellNoCost))
    contracts_ct := ((groupRecords cs ms mu).map (·.contracts_ct)).sum
    revenue := ((groupRecords cs ms mu).map (·.revenue)).sum
    pi_cut := ((groupRecords cs ms mu).map (·.pi_cut)).sum
    pi_cut_min := listMin ((groupRecords cs ms mu).map (·.pi_cut_min)) }

/-- Stage 2, `_aggregate_at_market_level`: one aggregated row per group key. -/
def aggregateAtMarketLevel (cs : List ContractCalc) : List MarketAgg :=
  (marketKeys cs).map fun k => aggregateGroup cs k.1 k.2

/-- A finished opportunity row, with the market-level columns of
`_calculate_at_market_level` (the order of the fields is the column order of
`_final_cols`). -/
structure OpportunityRecord where
  mshortName : String
  murl : String
  cbestBuyYesCost : ℚ
  cbestSellYesCost : ℚ
  cbestBuyNoCost : ℚ
  cbestSellNoCost : ℚ
  contracts_ct : ℚ
  revenue : ℚ
  pi_cut : ℚ
  pi_cut_min : ℚ
  pi_cut_less_min : ℚ
  acct_fee : ℚ
  profit_net : ℚ
deriving DecidableEq, Repr

/-- Stage 3, `_calculate_at_market_level` (lines 58-62 of `task.py`):
`revenue` loses 1, `pi_cut_less_min = pi_cut - pi_cut_min`,
`profit_net = revenue - cbestBuyNoCost - pi_cut_less_min` (with the already
decremented revenue), `acct_fee = 0`. -/
def calculateAtMarketLevel (a : MarketAgg) : OpportunityRecord :=
  { mshortName := a.mshortName
    murl := a.murl
    cbestBuyYesCost := a.cbestBuyYesCost
    cbestSellYesCost := a.cbestSellYesCost
    cbestBuyNoCost := a.cbestBuyNoCost
    cbestSellNoCost := a.cbestSellNoCost
    contracts_ct := a.contracts_ct
    revenue := a.revenue - 1
    pi_cut := a.pi_cut
    pi_cut_min := a.pi_cut_min
    pi_cut_less_min := a.pi_cut - a.pi_cut_min
    acct_fee := 0
    profit_net := (a.revenue - 1) - a.cbestBuyNoCost - (a.pi_cut - a.pi_cut_min) }

/-- Stage 4, `_filter_data`: keep rows with `contracts_ct > 1` and
`profit_net > 0`. -/
def filterData (l : List OpportunityRecord) : List OpportunityRecord :=
  l.filter fun r => decide (1 < r.contracts_ct) && decide (0 < r.profit_net)

/-- The Opportunity Calculator: the four stages composed, from flattened
contract rows to emitted opportunity rows. -/
def calculatorOutput (input : List ContractRecord) : List OpportunityRecord :=
  filterData ((aggregateAtMarketLevel (calculateAtContractLevel input)).map
    calculateAtMarketLevel)

/-- The non-null `cbestBuyNoCost` values of the qualifying contracts of the
market identified by `(ms, mu)` in the input. -/
def qualifying (input : List ContractRecord) (ms mu : String) : List ℚ :=
  input.filterMap fun r =>
    if r.mshortName == ms && r.murl == mu then r.cbestBuyNoCost else none

/-- The per-leg platform fee: 10 percent of the implied payout `1 - c`. -/
def fee (c : ℚ) : ℚ := (1 - c) * (1 / 10)

/-- One persisted row of the ledger CSV (`arbs.csv`): an opportunity row plus
the capture timestamp `dttm` assigned in `_finalize_and_save_dataframe`. -/
structure LedgerEntry extends OpportunityRecord where
  dttm : String
deriving DecidableEq, Repr

/-- Tagging one new opportunity row with the run's `dttm`
(`self.arbs.assign(dttm=dttm)`). -/
def tagEntry (dttm : String) (r : OpportunityRecord) : LedgerEntry :=
  { toOpportunityRecord := r, dttm := dttm }

/-- The ledger state after one save:
`pd.concat((self.arbs.assign(dttm=dttm), self._arbs_log))` puts the freshly
tagged rows first and the whole prior log after them, unchanged
(line 70 of `task.py`). -/
def appendToLog (arbs : List OpportunityRecord) (dttm : String)
    (log : List LedgerEntry) : List LedgerEntry :=
  arbs.map (tagEntry dttm) ++ log

/-- `drop_duplicates(subset=['murl'], keep='last')`: a row is kept exactly
when no row after it carries the same `murl`; the relative order of the kept
rows is unchanged. -/
def dropDupByMurlKeepLast : List LedgerEntry → List LedgerEntry
  | [] => []
  | e :: rest =>
      if rest.any fun x => x.murl == e.murl then dropDupByMurlKeepLast rest
      else e :: dropDupByMurlKeepLast rest

/-- The `min_profit_cutoff` constant of `_calculate_profit_from_log`. -/
def min_profit_cutoff : ℚ := 0

/-- The view `_calculate_profit_from_log` sums over:
`log[log.profit_net >= min_profit_cutoff].drop_duplicates(subset=['murl'],
keep='last')` (line 81 of `task.py`). -/
def actionableSet (log : List LedgerEntry) : List LedgerEntry :=
  dropDupByMurlKeepLast (log.filter fun e => decide (min_profit_cutoff ≤ e.profit_net))

/-- The profit figure of the summary: the `profit_net` sum over the
actionable view times the 850 bankroll multiplier (line 83 of `task.py`). -/
def profitTotal (log : List LedgerEntry) : ℚ :=
  ((actionableSet log).map (·.profit_net)).sum * 850

/-- One line of the summary text, keeping the structure and the numeric
content of the formatted string but abstracting the decimal rendering. -/
inductive ReportLine where
  | header (cutoff : ℚ)
  | sinceEpoch (days : ℤ) (amount : ℚ)
  | monthly (amount : ℚ)
  | annual (amount : ℚ)
deriving DecidableEq, Repr

/-- The summary built by `_calculate_profit_from_log` (lines 84-89 of
`task.py`): the cutoff header, then the since-epoch, monthly and annual
figures, with `days_elapsed` passed in (the code computes it from the clock). -/
def calculateProfitFromLog (log : List LedgerEntry) (days_elapsed : ℤ) :
    List ReportLine :=
  [ ReportLine.header min_profit_cutoff,
    ReportLine.sinceEpoch days_elapsed (profitTotal log),
    ReportLine.monthly (profitTotal log * (30 / (days_elapsed : ℚ))),
    ReportLine.annual (profitTotal log * (365 / (days_elapsed : ℚ))) ]

/-- `(asOf - epoch).days + 1` with timestamps in seconds: Python's
`timedelta.days` is floor division of the elapsed seconds by 86400
(line 82 of `task.py`). -/
def daysElapsed (epoch asOf : ℤ) : ℤ :=
  Int.fdiv (asOf - epoch) 86400 + 1

/-- The `_final_cols` column list of `Calculator.__init__`
(lines 20-23 of `task.py`). -/
def final_cols : List String :=
  [ "mshortName", "murl",
    "cbestBuyYesCost", "cbestSellYesCost", "cbestBuyNoCost", "cbestSellNoCost",
    "contracts_ct", "revenue", "pi_cut",
    "pi_cut_min", "pi_cut_less_min", "acct_fee", "profit_net" ]

/-- The columns of a saved ledger row: `_final_cols` plus the appended
`dttm` column. -/
def ledgerColumns : List String := final_cols ++ ["dttm"]

/-- A cell of a serialised ledger row. -/
inductive CellValue where
  | str (s : String)
  | num (q : ℚ)
deriving DecidableEq, Repr

/-- The serialised form of one ledger row: column name paired with the cell
value, in the column order the program writes. -/
def entryRow (e : LedgerEntry) : List (String × CellValue) :=
  [ ("mshortName", CellValue.str e.mshortName),
    ("murl", CellValue.str e.murl),
    ("cbestBuyYesCost", CellValue.num e.cbestBuyYesCost),
    ("cbestSellYesCost", CellValue.num e.cbestSellYesCost),
    ("cbestBuyNoCost", CellValue.num e.cbestBuyNoCost),
    ("cbestSellNoCost", CellValue.num e.cbestSellNoCost),
    ("contracts_ct", CellValue.num e.contracts_ct),
    ("revenue", CellValue.num e.revenue),
    ("pi_cut", CellValue.num e.pi_cut),
    ("pi_cut_min", CellValue.num e.pi_cut_min),
    ("pi_cut_less_min", CellValue.num e.pi_cut_less_min),
    ("acct_fee", CellValue.num e.acct_fee),
    ("profit_net", CellValue.num e.profit_net),
    ("dttm", CellValue.str e.dttm) ]

/-- The thirteen-column schema the specification ascribes to the ledger
store, written out for comparison with the schema the code writes.
Modelled from the spec: the column list named in the storage-format
sentence. -/
def specLedgerColumns : List String :=
  [ "mshortName", "murl",
    "cbestBuyYesCost", "cbestSellYesCost", "cbestBuyNoCost", "cbestSellNoCost",
    "contracts_ct", "revenue", "pi_cut",
    "pi_cut_min", "pi_cut_less_min", "profit_net", "dttm" ]

/-- The concrete market of the end-to-end example: three contracts with
buy-No costs 0.40, 0.30, 0.20. -/
def exampleContracts : List ContractRecord :=
  [ ⟨"M1govt", "m1", "c1", none, some (2/5), none, none⟩,
    ⟨"M1govt", "m1", "c2", none, some (3/10), none, none⟩,
    ⟨"M1govt", "m1", "c3", none, some (1/5), none, none⟩ ]

/-- The opportunity row the pipeline emits for `exampleContracts`. -/
def exRecord : OpportunityRecord :=
  ⟨"M1govt", "m1", 0, 0, 9/10, 0, 3, 2, 21/100, 3/50, 3/20, 0, 19/20⟩

/-- An older ledger entry for market `m1`. -/
def exOld : LedgerEntry :=
  ⟨⟨"M1", "m1", 0, 0, 9/10, 0, 3, 2, 21/100, 3/50, 3/20, 0, 19/20⟩,
    "2021-04-01 00:00:00"⟩

/-- A newer ledger entry for the same market `m1`, captured a day later. -/
def exNew : LedgerEntry :=
  ⟨⟨"M1", "m1", 0, 0, 9/10, 0, 2, 1, 1/100, 1/200, 1/200, 0, 1/10⟩,
    "2021-04-02 00:00:00"⟩

/-- A ledger entry whose `profit_net` is exactly zero. -/
def exZero : LedgerEntry :=
  ⟨⟨"M0", "m0", 0, 0, 1, 0, 2, 1, 1/20, 1/40, 1/40, 0, 0⟩, "2021-04-03 00:00:00"⟩

/-! Helper lemmas. -/

theorem dropDup_sublist (l : List LedgerEntry) :
    List.Sublist (dropDupByMurlKeepLast l) l := by
  induction l with
  | nil => exact List.Sublist.refl _
  | cons e rest ih =>
    rw [dropDupByMurlKeepLast]
    by_cases h : (rest.any fun x => x.murl == e.murl) = true
    · simp only [h, if_true]
      exact ih.trans (List.sublist_cons_self _ _)
    · simp only [h, if_false]
      exact ih.cons₂ _

theorem mem_of_mem_dropDup {l : List LedgerEntry} {e : LedgerEntry}
    (h : e ∈ dropDupByMurlKeepLast l) : e ∈ l :=
  (dropDup_sublist l).subset h

theorem dropDup_filter_murl (l : List LedgerEntry) (u : String) :
    (dropDupByMurlKeepLast l).filter (fun e => e.murl == u)
      = ((l.filter fun e => e.murl == u).getLast?).toList := by
  induction l with
  | nil => rfl
  | cons e rest ih =>
    rw [dropDupByMurlKeepLast]
    by_cases h : ∃ x ∈ rest, x.murl = e.murl
    · have hany : (rest.any fun x => x.murl == e.murl) = true := by
        simpa [List.any_eq_true] using h
      simp only [hany, if_true]
      rw [ih]
      by_cases hu : e.murl = u
      · have hne : rest.filter (fun e => e.murl == u) ≠ [] := by
          obtain ⟨x, hx, hxe⟩ := h
          have hxmem : x ∈ rest.filter (fun e => e.murl == u) := by
            simp [List.mem_filter, hx, hxe, hu]
          intro hnil
          rw [hnil] at hxmem
          exact absurd hxmem (List.not_mem_nil x)
        rw [List.filter_cons_of_pos (by simpa using hu)]
        obtain ⟨b, t, hbt⟩ := List.exists_cons_of_ne_nil hne
        rw [hbt, List.getLast?_cons_cons]
      · rw [List.filter_cons_of_neg (by simpa using hu)]
    · push_neg at h
      have hany : (rest.any fun x => x.murl == e.murl) = false := by
        simpa [List.any_eq_true] using h
      simp only [hany, Bool.false_eq_true, if_false]
      by_cases hu : e.murl = u
      · have hrest : rest.filter (fun e => e.murl == u) = [] := by
          rw [List.filter_eq_nil_iff]
          intro x hx
          simp only [beq_iff_eq]
          intro hxu
          exact h x hx (hxu.trans hu.symm)
        have hdd : (dropDupByMurlKeepLast rest).filter (fun e => e.murl == u) = [] := by
          rw [ih, hrest]
          rfl
        rw [List.filter_cons_of_pos (by simpa using hu), hdd,
          List.filter_cons_of_pos (by simpa using hu), hrest]
        rfl
      · rw [List.filter_cons_of_neg (by simpa using hu),
          List.filter_cons_of_neg (by simpa using hu), ih]

theorem group_calc_map_proj {α : Type} (f : ContractCalc → α) (g : ℚ → α)
    (hfg : ∀ r c, f (mkContractCalc r c) = g c)
    (input : List ContractRecord) (ms mu : String) :
    (groupRecords (calculateAtContractLevel input) ms mu).map f
      = (qualifying input ms mu).map g := by
  induction input with
  | nil => rfl
  | cons r rest ih =>
    cases hc : r.cbestBuyNoCost with
    | none =>
      simp only [calculateAtContractLevel, qualifying, List.filterMap_cons, hc,
        Option.map_none', ite_self] at *
      exact ih
    | some c =>
      cases hk : (r.mshortName == ms && r.murl == mu) with
      | true =>
        have hkmk : ((mkContractCalc r c).mshortName == ms
            && (mkContractCalc r c).murl == mu) = true := hk
        simp only [calculateAtContractLevel, qualifying, List.filterMap_cons, hc,
          Option.map_some', hk, if_true, groupRecords, List.filter_cons, hkmk,
          List.map_cons, hfg] at *
        rw [ih]
      | false =>
        have hkmk : ((mkContractCalc r c).mshortName == ms
            && (mkContractCalc r c).murl == mu) = false := hk
        simp only [calculateAtContractLevel, qualifying, List.filterMap_cons, hc,
          Option.map_some', hk, Bool.false_eq_true, if_false, groupRecords,
          List.filter_cons, hkmk] at *
        exact ih

theorem sum_map_one (l : List ℚ) : (l.map fun _ => (1 : ℚ)).sum = l.length := by
  induction l with
  | nil => rfl
  | cons a t ih => simp [ih]; ring

theorem optSum_map_some (l : List ℚ) : optSum (l.map some) = l.sum := by
  induction l with
  | nil => rfl
  | cons a t ih =>
    simp only [optSum, List.map_cons, List.sum_cons, Option.getD_some] at *
    rw [ih]

theorem mem_calculatorOutput {input : List ContractRecord} {r : OpportunityRecord}
    (h : r ∈ calculatorOutput input) :
    (∃ ms mu, r = calculateAtMarketLevel
        (aggregateGroup (calculateAtContractLevel input) ms mu))
      ∧ 1 < r.contracts_ct ∧ 0 < r.profit_net := by
  unfold calculatorOutput filterData at h
  rw [List.mem_filter] at h
  obtain ⟨hmem, hcond⟩ := h
  simp only [Bool.and_eq_true, decide_eq_true_eq] at hcond
  rw [List.mem_map] at hmem
  obtain ⟨a, ha, rfl⟩ := hmem
  unfold aggregateAtMarketLevel at ha
  rw [List.mem_map] at ha
  obtain ⟨k, _, rfl⟩ := ha
  exact ⟨⟨k.1, k.2, rfl⟩, hcond⟩

theorem aggregateGroup_fields (input : List ContractRecord) (ms mu : String) :
    (aggregateGroup (calculateAtContractLevel input) ms mu).contracts_ct
        = (qualifying input ms mu).length
      ∧ (aggregateGroup (calculateAtContractLevel input) ms mu).revenue
        = (qualifying input ms mu).length
      ∧ (aggregateGroup (calculateAtContractLevel input) ms mu).cbestBuyNoCost
        = (qualifying input ms mu).sum
      ∧ (aggregateGroup (calculateAtContractLevel input) ms mu).pi_cut
        = ((qualifying input ms mu).map fee).sum
      ∧ (aggregateGroup (calculateAtContractLevel input) ms mu).pi_cut_min
        = listMin ((qualifying input ms mu).map fee) := by
  refine ⟨?_, ?_, ?_, ?_, ?_⟩
  · show ((groupRecords (calculateAtContractLevel input) ms mu).map
      (·.contracts_ct)).sum = _
    rw [group_calc_map_proj (fun x => x.contracts_ct) (fun _ => (1 : ℚ))
      (fun _ _ => rfl), sum_map_one]
  · show ((groupRecords (calculateAtContractLevel input) ms mu).map
      (·.revenue)).sum = _
    rw [group_calc_map_proj (fun x => x.revenue) (fun _ => (1 : ℚ))
      (fun _ _ => rfl), sum_map_one]
  · show optSum ((groupRecords (calculateAtContractLevel input) ms mu).map
      (·.cbestBuyNoCost)) = _
    rw [group_calc_map_proj (fun x => x.cbestBuyNoCost) some (fun _ _ => rfl),
      optSum_map_some]
  · show ((groupRecords (calculateAtContractLevel input) ms mu).map
      (·.pi_cut)).sum = _
    rw [group_calc_map_proj (fun x => x.pi_cut) fee (fun _ _ => rfl)]
  · show listMin ((groupRecords (calculateAtContractLevel input) ms mu).map
      (·.pi_cut_min)) = _
    rw [group_calc_map_proj (fun x => x.pi_cut_min) fee (fun _ _ => rfl)]

theorem calculatorOutput_example : calculatorOutput exampleContracts = [exRecord] := by
  norm_num [calculatorOutput, calculateAtContractLevel, mkContractCalc,
    aggregateAtMarketLevel, marketKeys, aggregateGroup, groupRecords, optSum,
    listMin, filterData, calculateAtMarketLevel, exampleContracts, exRecord,
    List.filterMap, List.filter]

theorem exRecord_mem : exRecord ∈ calculatorOutput exampleContracts := by
  rw [calculatorOutput_example]
  exact List.mem_singleton.mpr rfl

/-! Claim theorems. -/

/-- C1: every opportunity row emitted by the Calculator has
`profit_net = (contracts_ct - 1) - (sum of the qualifying buy-No costs)
- (pi_cut - pi_cut_min)` exactly, where `pi_cut` is the sum and `pi_cut_min`
the minimum of the per-leg fees `(1 - c) * 0.1` over the market's qualifying
contracts, and `contracts_ct` counts those contracts. -/
theorem profit_net_exact (input : List ContractRecord) (r : OpportunityRecord)
    (h : r ∈ calculatorOutput input) :
    r.contracts_ct = (qualifying input r.mshortName r.murl).length
      ∧ r.pi_cut = ((qualifying input r.mshortName r.murl).map fee).sum
      ∧ r.pi_cut_min = listMin ((qualifying input r.mshortName r.murl).map fee)
      ∧ r.profit_net = (r.contracts_ct - 1)
          - (qualifying input r.mshortName r.murl).sum
          - (r.pi_cut - r.pi_cut_min) := by
  obtain ⟨⟨ms, mu, rfl⟩, -, -⟩ := mem_calculatorOutput h
  obtain ⟨h1, h2, h3, h4, h5⟩ := aggregateGroup_fields input ms mu
  simp only [calculateAtMarketLevel]
  refine ⟨h1, h4, h5, ?_⟩
  rw [h1, h2, h3, h4, h5]
  rfl

theorem profit_net_exact_witness :
    exRecord ∈ calculatorOutput exampleContracts
      ∧ (exRecord.contracts_ct
            = (qualifying exampleContracts exRecord.mshortName exRecord.murl).length
         ∧ exRecord.pi_cut
            = ((qualifying exampleContracts exRecord.mshortName exRecord.murl).map fee).sum
         ∧ exRecord.pi_cut_min
            = listMin ((qualifying exampleContracts exRecord.mshortName exRecord.murl).map fee)
         ∧ exRecord.profit_net = (exRecord.contracts_ct - 1)
              - (qualifying exampleContracts exRecord.mshortName exRecord.murl).sum
              - (exRecord.pi_cut - exRecord.pi_cut_min)) :=
  ⟨exRecord_mem, profit_net_exact exampleContracts exRecord exRecord_mem⟩

/-- C4: every emitted opportunity row has `contracts_ct > 1` and
`profit_net > 0`; its market has more than one qualifying contract, so a
market with exactly one qualifying contract never appears in the output. -/
theorem emitted_invariant (input : List ContractRecord) (r : OpportunityRecord)
    (h : r ∈ calculatorOutput input) :
    1 < r.contracts_ct ∧ 0 < r.profit_net
      ∧ 1 < (qualifying input r.mshortName r.murl).length
      ∧ ∀ ms mu, (qualifying input ms mu).length = 1
          → ¬(r.mshortName = ms ∧ r.murl = mu) := by
  obtain ⟨⟨ms, mu, rfl⟩, hct, hpn⟩ := mem_calculatorOutput h
  have h1 := (aggregateGroup_fields input ms mu).1
  have hlen : 1 < (qualifying input
      (calculateAtMarketLevel (aggregateGroup (calculateAtContractLevel input) ms mu)).mshortName
      (calculateAtMarketLevel (aggregateGroup (calculateAtContractLevel input) ms mu)).murl).length := by
    have : (1 : ℚ) < (qualifying input ms mu).length := by
      have hct' : (1 : ℚ)
          < (aggregateGroup (calculateAtContractLevel input) ms mu).contracts_ct := hct
      rw [h1] at hct'
      exact hct'
    exact_mod_cast this
  refine ⟨hct, hpn, hlen, ?_⟩
  rintro ms' mu' hone ⟨hms, hmu⟩
  rw [hms, hmu] at hlen
  omega

theorem emitted_invariant_witness :
    exRecord ∈ calculatorOutput exampleContracts
      ∧ (1 < exRecord.contracts_ct ∧ 0 < exRecord.profit_net
         ∧ 1 < (qualifying exampleContracts exRecord.mshortName exRecord.murl).length
         ∧ ∀ ms mu, (qualifying exampleContracts ms mu).length = 1
             → ¬(exRecord.mshortName = ms ∧ exRecord.murl = mu)) :=
  ⟨exRecord_mem, emitted_invariant exampleContracts exRecord exRecord_mem⟩

/-- C8: after the contract-level stage no row with a null `cbestBuyNoCost`
remains; every surviving row carries a non-null value, and the later stages
consume exactly this surviving set (`calculatorOutput` applies them to it). -/
theorem contract_level_nonnull (input : List ContractRecord) (c : ContractCalc)
    (h : c ∈ calculateAtContractLevel input) : c.cbestBuyNoCost.isSome := by
  unfold calculateAtContractLevel at h
  rw [List.mem_filterMap] at h
  obtain ⟨r, _, hmap⟩ := h
  cases hb : r.cbestBuyNoCost with
  | none =>
    rw [hb] at hmap
    exact absurd hmap (by simp)
  | some v =>
    rw [hb] at hmap
    simp only [Option.map_some', Option.some.injEq] at hmap
    rw [← hmap]
    rfl

/-- The first row surviving the contract-level stage on the example input. -/
def exCalcHead : ContractCalc :=
  mkContractCalc ⟨"M1govt", "m1", "c1", none, some (2/5), none, none⟩ (2/5)

theorem exCalcHead_mem : exCalcHead ∈ calculateAtContractLevel exampleContracts := by
  rw [show calculateAtContractLevel exampleContracts
    = [ exCalcHead,
        mkContractCalc ⟨"M1govt", "m1", "c2", none, some (3/10), none, none⟩ (3/10),
        mkContractCalc ⟨"M1govt", "m1", "c3", none, some (1/5), none, none⟩ (1/5) ]
    from rfl]
  exact List.mem_cons_self _ _

theorem contract_level_nonnull_witness :
    exCalcHead ∈ calculateAtContractLevel exampleContracts
      ∧ exCalcHead.cbestBuyNoCost.isSome :=
  ⟨exCalcHead_mem,
    contract_level_nonnull exampleContracts exCalcHead exCalcHead_mem⟩

/-- C10: every emitted opportunity row has `acct_fee = 0`, its `profit_net`
is computed without any account-fee term, and the tagged ledger row it
produces keeps `acct_fee = 0`. -/
theorem acct_fee_zero (input : List ContractRecord) (r : OpportunityRecord)
    (h : r ∈ calculatorOutput input) :
    r.acct_fee = 0
      ∧ r.profit_net = r.revenue - r.cbestBuyNoCost - r.pi_cut_less_min
      ∧ ∀ d : String, (tagEntry d r).acct_fee = 0 := by
  obtain ⟨⟨ms, mu, rfl⟩, -, -⟩ := mem_calculatorOutput h
  exact ⟨rfl, rfl, fun _ => rfl⟩

theorem acct_fee_zero_witness :
    exRecord ∈ calculatorOutput exampleContracts
      ∧ (exRecord.acct_fee = 0
         ∧ exRecord.profit_net
            = exRecord.revenue - exRecord.cbestBuyNoCost - exRecord.pi_cut_less_min
         ∧ ∀ d : String, (tagEntry d exRecord).acct_fee = 0) :=
  ⟨exRecord_mem, acct_fee_zero exampleContracts exRecord exRecord_mem⟩

/-- C5: appending a batch of tagged opportunity rows to the ledger keeps the
whole prior ledger as an unchanged suffix, and every entry's multiplicity in
the result is its multiplicity among the new tagged rows plus its prior
multiplicity: nothing is removed or altered, duplicates are preserved. -/
theorem ledger_append_monotonic (X : List OpportunityRecord) (d : String)
    (L : List LedgerEntry) :
    List.IsSuffix L (appendToLog X d L)
      ∧ ∀ e : LedgerEntry,
          (appendToLog X d L).count e
            = (X.map (tagEntry d)).count e + L.count e :=
  ⟨⟨X.map (tagEntry d), rfl⟩, fun _ => List.count_append ..⟩

/-- C6 counterexample: the schema the code writes is not the thirteen-column
schema the claim names: the code also writes `acct_fee`, which the claimed
list omits. -/
theorem ledger_columns_counterexample :
    specLedgerColumns ≠ ledgerColumns
      ∧ "acct_fee" ∈ ledgerColumns ∧ "acct_fee" ∉ specLedgerColumns := by
  refine ⟨by decide, by decide, by decide⟩

/-- C6 amended: every ledger row the program writes carries exactly the
fourteen columns `_final_cols ++ [dttm]`, that is the thirteen claimed
columns with `acct_fee` inserted between `pi_cut_less_min` and
`profit_net`. -/
theorem ledger_row_columns (e : LedgerEntry) :
    (entryRow e).map Prod.fst = ledgerColumns
      ∧ ledgerColumns.length = 14
      ∧ ledgerColumns
        = [ "mshortName", "murl",
            "cbestBuyYesCost", "cbestSellYesCost", "cbestBuyNoCost",
            "cbestSellNoCost", "contracts_ct", "revenue", "pi_cut",
            "pi_cut_min", "pi_cut_less_min", "acct_fee", "profit_net",
            "dttm" ] :=
  ⟨rfl, rfl, rfl⟩

/-- C7 counterexample: the summary of the empty ledger after one day has
four lines, not three: the minimum-profit-cutoff header precedes the
since-epoch, monthly and annual lines. -/
theorem summary_lines_counterexample :
    (calculateProfitFromLog [] 1).length = 4
      ∧ (calculateProfitFromLog [] 1).length ≠ 3 :=
  ⟨rfl, by decide⟩

/-- C7 amended: for every ledger and day count the report is exactly four
lines: the cutoff header, the since-epoch total (actionable `profit_net` sum
times the 850 bankroll multiplier), that total times `30 / days_elapsed`,
and that total times `365 / days_elapsed`. -/
theorem summary_structure (log : List LedgerEntry) (d : ℤ) :
    calculateProfitFromLog log d
      = [ ReportLine.header min_profit_cutoff,
          ReportLine.sinceEpoch d (profitTotal log),
          ReportLine.monthly (profitTotal log * (30 / (d : ℚ))),
          ReportLine.annual (profitTotal log * (365 / (d : ℚ))) ]
      ∧ (calculateProfitFromLog log d).length = 4
      ∧ profitTotal log = ((actionableSet log).map (·.profit_net)).sum * 850 :=
  ⟨rfl, rfl, rfl⟩

/-- C9: whenever the as-of time is at or after the epoch, `days_elapsed` is
at least 1, and during the epoch day itself it is exactly 1, so the
projections never divide by zero. -/
theorem days_elapsed_ge_one (epoch asOf : ℤ) (h : epoch ≤ asOf) :
    1 ≤ daysElapsed epoch asOf
      ∧ (asOf < epoch + 86400 → daysElapsed epoch asOf = 1) := by
  constructor
  · have h0 : (0 : ℤ) ≤ asOf - epoch := by omega
    have := Int.fdiv_nonneg h0 (by norm_num : (0 : ℤ) ≤ 86400)
    unfold daysElapsed
    omega
  · intro hlt
    have h0 : (0 : ℤ) ≤ asOf - epoch := by omega
    have hsm : asOf - epoch < 86400 := by omega
    unfold daysElapsed
    rw [Int.fdiv_eq_ediv _ (by norm_num : (0 : ℤ) ≤ 86400),
      Int.ediv_eq_zero_of_lt h0 hsm]
    rfl

theorem days_elapsed_ge_one_witness :
    (0 : ℤ) ≤ 0
      ∧ (1 ≤ daysElapsed 0 0 ∧ ((0 : ℤ) < 0 + 86400 → daysElapsed 0 0 = 1)) :=
  ⟨le_refl 0, days_elapsed_ge_one 0 0 (le_refl 0)⟩

theorem actionable_exZero : actionableSet [exZero] = [exZero] := by
  norm_num [actionableSet, dropDupByMurlKeepLast, min_profit_cutoff, exZero,
    List.filter, List.any]

theorem exZero_mem : exZero ∈ actionableSet [exZero] := by
  rw [actionable_exZero]
  exact List.mem_singleton.mpr rfl

/-- C3 counterexample: a ledger entry whose `profit_net` is exactly zero is
kept by the actionable view and contributes to the summed profit, because
the code filters with `profit_net >= min_profit_cutoff` and the cutoff is
zero. -/
theorem zero_profit_included_counterexample :
    exZero.profit_net = 0
      ∧ actionableSet [exZero] = [exZero]
      ∧ ((actionableSet [exZero]).map (·.profit_net)).sum = 0 := by
  refine ⟨rfl, actionable_exZero, ?_⟩
  rw [actionable_exZero]
  norm_num [exZero]

/-- C3 amended: the actionable view is the ledger filtered to
`profit_net >= 0` (the code's cutoff is zero and the comparison is
non-strict), then deduplicated by `murl`; every entry of the view is a
ledger entry with non-negative (possibly zero) `profit_net`. -/
theorem actionable_entries_nonneg (log : List LedgerEntry) (e : LedgerEntry)
    (h : e ∈ actionableSet log) : e ∈ log ∧ 0 ≤ e.profit_net := by
  unfold actionableSet at h
  have h' := mem_of_mem_dropDup h
  rw [List.mem_filter] at h'
  refine ⟨h'.1, ?_⟩
  simpa [min_profit_cutoff] using h'.2

theorem actionable_entries_nonneg_witness :
    exZero ∈ actionableSet [exZero]
      ∧ (exZero ∈ [exZero] ∧ 0 ≤ exZero.profit_net) :=
  ⟨exZero_mem, actionable_entries_nonneg [exZero] exZero exZero_mem⟩

/-- C2 counterexample: in a ledger holding two qualifying entries for the
same market URL, newest first as the program stores them, the actionable
view keeps the entry with the older capture timestamp, not the most recent
one. -/
theorem actionable_keeps_last_stored_counterexample :
    actionableSet [exNew, exOld] = [exOld]
      ∧ exOld.dttm < exNew.dttm
      ∧ exNew.murl = exOld.murl
      ∧ exNew ∈ [exNew, exOld]
      ∧ 0 < exNew.profit_net
      ∧ exNew ∉ actionableSet [exNew, exOld] := by
  have hact : actionableSet [exNew, exOld] = [exOld] := by
    norm_num [actionableSet, dropDupByMurlKeepLast, min_profit_cutoff, exNew,
      exOld, List.filter, List.any]
  refine ⟨hact, ?_, rfl, by simp, by norm_num [exNew], ?_⟩
  · exact String.lt_iff_toList_lt.mpr (by decide)
  · rw [hact]
    intro hmem
    have : exNew = exOld := List.mem_singleton.mp hmem
    exact absurd (congrArg (fun e => e.dttm) this) (by decide)

/-- C2 amended: for every ledger and market URL, the actionable view holds
the rows with that URL of exactly one ledger entry: the last-stored entry
with that URL among those passing the profit cutoff (under the program's
newest-first storage order this is the earliest captured one), and no row at
all when no entry with that URL passes the cutoff. -/
theorem actionable_one_row_per_murl (log : List LedgerEntry) (u : String) :
    (actionableSet log).filter (fun e => e.murl == u)
      = ((log.filter fun e =>
            (e.murl == u) && decide (min_profit_cutoff ≤ e.profit_net)).getLast?).toList := by
  unfold actionableSet
  rw [dropDup_filter_murl, List.filter_filter]
